import Mathlib

/-!
# Signed cookies with secret rotation (package `cookie`, file `cookie.go`)

A shallow embedding of the rotation manager.  Go's `(T, error)` results are pairs whose second
component is an `Option Error` (`none` is Go's `nil`).  The two libraries the package calls,
`encoding/base64` and `gorilla/securecookie`, are not part of the package: every definition
that reaches them takes them through a `Lib` record, and the theorems hold for every `Lib`.
-/

namespace Cookie

/-! ## Data model -/

/-- Go `error` values that reach this package. -/
inductive Error where
  /-- `base64.CorruptInputError(offset)`. -/
  | corruptInput (offset : Nat)
  /-- `errors.New(msg)`. -/
  | errorString (msg : String)
  /-- An error value produced inside `securecookie`. -/
  | secureCookie (msg : String)
  deriving DecidableEq, Repr

set_option linter.dupNamespace false in
/-- The method `Error()` of Go's `error` interface. -/
def Error.Error : Error → String
  | .corruptInput offset => "illegal base64 data at input byte " ++ toString offset
  | .errorString msg => msg
  | .secureCookie msg => msg

/-- A `*securecookie.SecureCookie` as this package uses it.
`Encode key value` is Go's `Encode(key, value) (string, error)`.
`Decode key encoded dst` is Go's `Decode(key, encoded, &dst) error`: it receives the present
content of the destination and returns its content after the call, with the error. -/
structure SecureCookie where
  Encode : String → String → String × Option Error
  Decode : String → String → String → String × Option Error

/-- The libraries the package imports. -/
structure Lib where
  /-- `base64.StdEncoding.DecodeString`. -/
  DecodeString : String → List Nat × Option Error
  /-- `securecookie.New(hashKey, nil)`. -/
  New : List Nat → SecureCookie

/-- `http.SameSite` is an `int`. -/
abbrev SameSite := Int

/-- `http.SameSiteLaxMode` (`SameSiteDefaultMode = iota + 1`, then Lax, Strict, None). -/
def SameSiteLaxMode : SameSite := 2

/-- `type Manager struct`. -/
structure Manager where
  CurrentSecureCookieInstance : SecureCookie
  PreviousSecureCookieInstance : SecureCookie
  SameSite : SameSite
  Path : String

/-- `type ManagerOptions struct`. -/
structure ManagerOptions where
  CurrentCookieSecret : String
  PreviousCookieSecret : String
  SameSite : SameSite
  Path : String

/-! ## Operations -/

/-- `func fromBase64(s string) ([]byte, error)`. -/
def fromBase64 (lib : Lib) (s : String) : List Nat × Option Error :=
  lib.DecodeString s

/-- The error of `NewManager` for a current secret of the wrong length. -/
def errCurrentLength : Error :=
  .errorString "current cookie secret must be 32 or 64 bytes"

/-- The error of `NewManager` for a previous secret of the wrong length. -/
def errPreviousLength : Error :=
  .errorString "previous cookie secret must be 32 or 64 bytes"

/-- `func NewManager(options ManagerOptions) (*Manager, error)`. -/
def NewManager (lib : Lib) (options : ManagerOptions) : Option Manager × Option Error :=
  match fromBase64 lib options.CurrentCookieSecret with
  | (_, some err) => (none, some err)
  | (currentBytes, none) =>
    if currentBytes.length ≠ 32 ∧ currentBytes.length ≠ 64 then
      (none, some errCurrentLength)
    else
      match fromBase64 lib options.PreviousCookieSecret with
      | (_, some err) => (none, some err)
      | (previousBytes, none) =>
        if previousBytes.length ≠ 32 ∧ previousBytes.length ≠ 64 then
          (none, some errPreviousLength)
        else
          let currentInstance := lib.New currentBytes
          let previousInstance := lib.New previousBytes
          let sameSite := if options.SameSite = 0 then SameSiteLaxMode else options.SameSite
          let path := if options.Path = "" then "/" else options.Path
          (some
            { CurrentSecureCookieInstance := currentInstance
              PreviousSecureCookieInstance := previousInstance
              Path := path
              SameSite := sameSite }, none)

/-- `func (m Manager) Sign(key string, value string) (string, error)`. -/
def Manager.Sign (m : Manager) (key value : String) : String × Option Error :=
  match m.CurrentSecureCookieInstance.Encode key value with
  | (_, some err) => ("", some err)
  | (encodedValue, none) => (encodedValue, none)

/-- The line `Read` prints before it falls back. -/
def fallbackLine (err : Error) : String :=
  "Falling back to previous cookie secret for key. Error: " ++ err.Error ++ "\n"

/-- `func (m Manager) Read(key string, encodedValue string) (string, error)`.
The first component is the returned pair, the second what the call writes to standard
output. -/
def Manager.Read (m : Manager) (key encodedValue : String) :
    (String × Option Error) × List String :=
  let value := ""
  match m.CurrentSecureCookieInstance.Decode key encodedValue value with
  | (value, some err) =>
    (m.PreviousSecureCookieInstance.Decode key encodedValue value, [fallbackLine err])
  | (value, none) => ((value, none), [])

/-! ## A concrete library

`stdLib` instantiates `Lib` with RFC 4648 base64 decoding as `base64.StdEncoding` performs it
(standard alphabet, mandatory `=` padding, `\r` and `\n` skipped, not strict about the unused
trailing bits) and with a small keyed codec.  It is used to evaluate the package on concrete
configurations. -/

/-- The decode map of the standard alphabet: `A-Z`, `a-z`, `0-9`, `+`, `/`. -/
def decodeMap (c : Char) : Option Nat :=
  let n := c.toNat
  if 65 ≤ n ∧ n ≤ 90 then some (n - 65)
  else if 97 ≤ n ∧ n ≤ 122 then some (n - 97 + 26)
  else if 48 ≤ n ∧ n ≤ 57 then some (n - 48 + 52)
  else if n = 43 then some 62
  else if n = 47 then some 63
  else none

/-- The bytes a quantum of `dlen` sextets yields (`dlen - 1` of them). -/
def quantumBytes (dbuf : List Nat) (dlen : Nat) : List Nat :=
  let val := dbuf.getD 0 0 * 2 ^ 18 + dbuf.getD 1 0 * 2 ^ 12 + dbuf.getD 2 0 * 2 ^ 6
    + dbuf.getD 3 0
  [val / 2 ^ 16 % 256, val / 2 ^ 8 % 256, val % 256].take (dlen - 1)

/-- Skips `\r` and `\n`; returns the rest of the input and its offset. -/
def skipNewlines : List Char → Nat → List Char × Nat
  | [], si => ([], si)
  | c :: rest, si =>
    if c = '\n' ∨ c = '\r' then skipNewlines rest (si + 1) else (c :: rest, si)

/-- After the padding of a quantum: newlines may follow, anything else is trailing garbage
(the bytes of the quantum are still delivered, with the error). -/
def afterPadding (rest : List Char) (si : Nat) (out : List Nat) : List Nat × Option Error :=
  match skipNewlines rest si with
  | ([], _) => (out, none)
  | (_ :: _, si) => (out, some (.corruptInput si))

/-- The decoding loop.  `src` is the input still to read, `si` its offset, `j` the number of
sextets of the open quantum, held in `dbuf`, and `out` the bytes decoded so far.  Every
offset reported lies after characters of the alphabet, `=`, `\r` and `\n` only, so offsets
in characters and in bytes agree. -/
def decodeFrom (srcLen : Nat) : List Char → Nat → Nat → List Nat → List Nat →
    List Nat × Option Error
  | [], si, j, _, out =>
    if j = 0 then (out, none) else (out, some (.corruptInput (si - j)))
  | c :: rest, si, j, dbuf, out =>
    match decodeMap c with
    | some v =>
      if j = 3 then decodeFrom srcLen rest (si + 1) 0 [] (out ++ quantumBytes (dbuf ++ [v]) 4)
      else decodeFrom srcLen rest (si + 1) (j + 1) (dbuf ++ [v]) out
    | none =>
      if c = '\n' ∨ c = '\r' then decodeFrom srcLen rest (si + 1) j dbuf out
      else if c ≠ '=' then (out, some (.corruptInput si))
      else if j = 0 ∨ j = 1 then (out, some (.corruptInput si))
      else if j = 2 then
        match skipNewlines rest (si + 1) with
        | ([], _) => (out, some (.corruptInput srcLen))
        | (c2 :: rest2, si2) =>
          if c2 ≠ '=' then (out, some (.corruptInput (si2 - 1)))
          else afterPadding rest2 (si2 + 1) (out ++ quantumBytes dbuf 2)
      else afterPadding rest (si + 1) (out ++ quantumBytes dbuf 3)

/-- A model of `base64.StdEncoding.DecodeString`. -/
def stdDecodeString (s : String) : List Nat × Option Error :=
  decodeFrom s.data.length s.data 0 0 [] []

/-- If `pre` starts `l`, what follows it. -/
def dropFront : List Char → List Char → Option (List Char)
  | [], l => some l
  | _ :: _, [] => none
  | p :: pre, c :: l => if p = c then dropFront pre l else none

/-- What the keyed codec puts before the value: the key, the length of the name, the name. -/
def codecHeader (hashKey : List Nat) (name : String) : List Char :=
  hashKey.map Char.ofNat ++ [':'] ++ (toString name.length).data ++ [':'] ++ name.data
    ++ ['|']

/-- The error of the keyed codec for a token it does not accept. -/
def errNotValid : Error := .secureCookie "securecookie: the value is not valid"

/-- The error of the keyed codec for a value it does not encode. -/
def errTooLong : Error := .secureCookie "securecookie: the value is too long"

/-- A keyed codec in the shape of a `*securecookie.SecureCookie`: a token is the header of
key and name followed by the value; values over 4096 characters are not encoded; a token
that does not start with the header is rejected and the destination is left as it was. -/
def keyedCodec (hashKey : List Nat) : SecureCookie where
  Encode name value :=
    if 4096 < value.length then ("", some errTooLong)
    else (String.mk (codecHeader hashKey name ++ value.data), none)
  Decode name encoded dst :=
    match dropFront (codecHeader hashKey name) encoded.data with
    | some v => (String.mk v, none)
    | none => (dst, some errNotValid)

/-- The concrete library. -/
def stdLib : Lib where
  DecodeString := stdDecodeString
  New := keyedCodec

/-! ## Contracts of the codec and concrete managers -/

/-- The codec decodes what it encodes, whatever the destination holds before the call. -/
def Reversible (sc : SecureCookie) : Prop :=
  ∀ name value tok dst, sc.Encode name value = (tok, none) → sc.Decode name tok dst = (value, none)

/-- The codec `sc` fails on every token the codec `other` produces. -/
def Rejects (sc other : SecureCookie) : Prop :=
  ∀ name value tok dst, other.Encode name value = (tok, none) → (sc.Decode name tok dst).2 ≠ none

/-- A manager over the keyed codec, with the default attributes. -/
def keyedManager (current previous : List Nat) : Manager where
  CurrentSecureCookieInstance := keyedCodec current
  PreviousSecureCookieInstance := keyedCodec previous
  SameSite := SameSiteLaxMode
  Path := "/"

/-- Base64 of 32 zero bytes. -/
def secretA : String := "AAAAAAAAAAAAAAAAAAAAAAAAAAAAAAAAAAAAAAAAAAA="

/-- Base64 of the byte 4 followed by 31 zero bytes. -/
def secretB : String := "BAAAAAAAAAAAAAAAAAAAAAAAAAAAAAAAAAAAAAAAAAA="

/-- Base64 of the byte 8 followed by 31 zero bytes. -/
def secretC : String := "CAAAAAAAAAAAAAAAAAAAAAAAAAAAAAAAAAAAAAAAAAA="

/-- The bytes of `secretA`. -/
def bytesA : List Nat := 0 :: List.replicate 31 0

/-- The bytes of `secretB`. -/
def bytesB : List Nat := 4 :: List.replicate 31 0

/-- The bytes of `secretC`. -/
def bytesC : List Nat := 8 :: List.replicate 31 0

/-- Base64 of 31 zero bytes. -/
def secret31 : String := "AAAAAAAAAAAAAAAAAAAAAAAAAAAAAAAAAAAAAAAAAA=="

/-- Base64 of 33 zero bytes. -/
def secret33 : String := "AAAAAAAAAAAAAAAAAAAAAAAAAAAAAAAAAAAAAAAAAAAA"

/-- Base64 of 64 zero bytes. -/
def secret64 : String :=
  "AAAAAAAAAAAAAAAAAAAAAAAAAAAAAAAAAAAAAAAAAAAAAAAAAAAAAAAAAAAAAAAAAAAAAAAAAAAAAAAAAAAAAA=="

/-- A string that is not base64. -/
def notBase64 : String := "not base64!"

/-- A secret string is valid: it is base64 and decodes to 32 or 64 bytes. -/
def ValidSecret (lib : Lib) (s : String) : Prop :=
  (fromBase64 lib s).2 = none ∧
    ((fromBase64 lib s).1.length = 32 ∨ (fromBase64 lib s).1.length = 64)

instance (lib : Lib) (s : String) : Decidable (ValidSecret lib s) := by
  unfold ValidSecret
  infer_instance

/-- The manager `NewManager` returns when both secrets are valid. -/
def builtManager (lib : Lib) (options : ManagerOptions) : Manager where
  CurrentSecureCookieInstance := lib.New (fromBase64 lib options.CurrentCookieSecret).1
  PreviousSecureCookieInstance := lib.New (fromBase64 lib options.PreviousCookieSecret).1
  SameSite := if options.SameSite = 0 then SameSiteLaxMode else options.SameSite
  Path := if options.Path = "" then "/" else options.Path

/-! ## The cookie transport

`net/http` is not part of the package.  A response is the sequence of records the package
hands to `http.SetCookie`, a request is what its method `Cookie` answers. -/

/-- `http.Cookie`, with the fields the package sets; every other field keeps its zero
value. -/
structure HttpCookie where
  Name : String
  Value : String
  Path : String := ""
  MaxAge : Int := 0
  Secure : Bool := false
  HttpOnly : Bool := false
  SameSite : SameSite := 0
  deriving DecidableEq, Repr

/-- `http.ResponseWriter`: the records handed to `http.SetCookie`, oldest first. -/
abbrev ResponseWriter := List HttpCookie

/-- `http.SetCookie(w, cookie)`. -/
def httpSetCookie (w : ResponseWriter) (cookie : HttpCookie) : ResponseWriter :=
  w ++ [cookie]

/-- `*http.Request`.  `Cookie name` is Go's `r.Cookie(name)`: `some` cookie with a nil error,
or `none` for a non-nil error (the cookie is not present). -/
structure Request where
  Cookie : String → Option HttpCookie

/-- The request that carries the given cookies: `Cookie` answers the first with the name. -/
def requestOf (cookies : List HttpCookie) : Request where
  Cookie name := cookies.find? (fun c => c.Name = name)

/-- The error of `GetCookieValue` for an absent cookie. -/
def errCookieNotFound : Error := .errorString "cookie not found"

/-- `func (m Manager) SetCookie(w http.ResponseWriter, r *http.Request, key string,
value string) error`: the response after the call, and the error. -/
def Manager.SetCookie (m : Manager) (w : ResponseWriter) (_r : Request) (key value : String) :
    ResponseWriter × Option Error :=
  match m.Sign key value with
  | (_, some err) => (w, some err)
  | (encodedValue, none) =>
    (httpSetCookie w
      { Name := key
        Value := encodedValue
        SameSite := m.SameSite
        HttpOnly := true
        Secure := true
        Path := m.Path }, none)

/-- `func (m Manager) GetCookieValue(r *http.Request, key string) (string, error)`: the
returned pair, and what the call writes to standard output. -/
def Manager.GetCookieValue (m : Manager) (r : Request) (key : String) :
    (String × Option Error) × List String :=
  match r.Cookie key with
  | none => (("", some errCookieNotFound), [])
  | some cookie =>
    match m.Read key cookie.Value with
    | ((_, some err), out) => (("", some err), out)
    | ((value, none), out) => ((value, none), out)

/-- `func (m Manager) DeleteCookie(w http.ResponseWriter, key string)`: the response after
the call. -/
def Manager.DeleteCookie (m : Manager) (w : ResponseWriter) (key : String) : ResponseWriter :=
  httpSetCookie w
    { Name := key
      Value := ""
      SameSite := m.SameSite
      HttpOnly := true
      Secure := true
      Path := m.Path
      MaxAge := -1 }

/-- A codec whose `Decode` always fails and leaves a value in the destination. -/
def leakyCodec : SecureCookie where
  Encode _ _ := ("", some errTooLong)
  Decode _ _ dst := (dst ++ "partial", some errNotValid)

/-- The single decode of one codec on a fresh destination, the reading of a manager that
does not rotate. -/
def readSingle (sc : SecureCookie) (key encodedValue : String) : String × Option Error :=
  sc.Decode key encodedValue ""

/-- The outcome of `Decode`, its error and on success its value, does not depend on what
the destination held before the call. -/
def Deterministic (sc : SecureCookie) : Prop :=
  ∀ name tok d1 d2,
    (sc.Decode name tok d1).2 = (sc.Decode name tok d2).2 ∧
      ((sc.Decode name tok d1).2 = none → (sc.Decode name tok d1).1 = (sc.Decode name tok d2).1)

/-- The verification algorithm in the words of the design (decode with the current codec;
on any failure decode with the previous codec and return its result), without output. -/
def verifySpec (m : Manager) (key encodedValue : String) : String × Option Error :=
  match m.CurrentSecureCookieInstance.Decode key encodedValue "" with
  | (value, none) => (value, none)
  | (value, some _) => m.PreviousSecureCookieInstance.Decode key encodedValue value

/-- Domain separation: `sc` fails, under any other name, on every token `other` produces. -/
def NameBound (sc other : SecureCookie) : Prop :=
  ∀ name1 name2 value tok dst, name1 ≠ name2 → other.Encode name1 value = (tok, none) →
    (sc.Decode name2 tok dst).2 ≠ none

/-- The token `b` is the token `a` with one position changed. -/
def OneByteChanged (a b : String) : Prop :=
  ∃ pre x y suf, x ≠ y ∧ a.data = pre ++ x :: suf ∧ b.data = pre ++ y :: suf

/-- Tamper evidence: `sc` fails, under the same name, on every token of `other` with one
position changed. -/
def TamperEvident (sc other : SecureCookie) : Prop :=
  ∀ name value tok tok2 dst, other.Encode name value = (tok, none) → OneByteChanged tok tok2 →
    (sc.Decode name tok2 dst).2 ≠ none

/-- Every character twice. -/
def double : List Char → List Char
  | [] => []
  | c :: cs => c :: c :: double cs

/-- The inverse of `double`; `none` when some pair does not agree. -/
def undouble : List Char → Option (List Char)
  | [] => some []
  | [_] => none
  | a :: b :: rest => if a = b then (undouble rest).map (a :: ·) else none

/-- The keyed codec with every character of the token doubled, so that a change of one
position is detected. -/
def sealedCodec (hashKey : List Nat) : SecureCookie where
  Encode name value :=
    match (keyedCodec hashKey).Encode name value with
    | (_, some err) => ("", some err)
    | (tok, none) => (String.mk (double tok.data), none)
  Decode name encoded dst :=
    match undouble encoded.data with
    | none => (dst, some errNotValid)
    | some t => (keyedCodec hashKey).Decode name (String.mk t) dst

/-- The character of a sextet in the URL alphabet: `A-Z`, `a-z`, `0-9`, `-`, `_`. -/
def urlEncodeChar (v : Nat) : Char :=
  if v < 26 then Char.ofNat (65 + v)
  else if v < 52 then Char.ofNat (97 + (v - 26))
  else if v < 62 then Char.ofNat (48 + (v - 52))
  else if v = 62 then '-'
  else '_'

/-- A model of `base64.URLEncoding.EncodeToString`: three bytes give four characters, a
last group of one or two bytes is padded with `=`. -/
def urlEncode : List Nat → List Char
  | [] => []
  | [a] => [urlEncodeChar (a / 4), urlEncodeChar (a % 4 * 16), '=', '=']
  | [a, b] =>
    [urlEncodeChar (a / 4), urlEncodeChar (a % 4 * 16 + b / 16), urlEncodeChar (b % 16 * 4), '=']
  | a :: b :: c :: rest =>
    urlEncodeChar (a / 4) :: urlEncodeChar (a % 4 * 16 + b / 16) ::
      urlEncodeChar (b % 16 * 4 + c / 64) :: urlEncodeChar (c % 64) :: urlEncode rest

/-- The URL alphabet read through the standard one: `-` and `_` stand for `+` and `/`,
which themselves are not in the URL alphabet. -/
def urlToStd (c : Char) : Char :=
  if c = '-' then '+'
  else if c = '_' then '/'
  else if c = '+' ∨ c = '/' then '!'
  else c

/-- A model of `base64.URLEncoding.DecodeString`: the decoding of `stdDecodeString` over the
URL alphabet, not strict about the unused trailing bits either. -/
def urlDecodeString (s : String) : List Nat × Option Error :=
  stdDecodeString (String.mk (s.data.map urlToStd))

/-- A codec with the outer layer of `securecookie`: the token is the padded URL base64 text
of an authenticated payload (here the token of the sealed codec), and `Decode` takes the
base64 text apart before it checks the payload. -/
def base64Codec (hashKey : List Nat) : SecureCookie where
  Encode name value :=
    match (sealedCodec hashKey).Encode name value with
    | (_, some err) => ("", some err)
    | (tok, none) => (String.mk (urlEncode (tok.data.map Char.toNat)), none)
  Decode name encoded dst :=
    match urlDecodeString encoded with
    | (_, some _) => (dst, some errNotValid)
    | (bytes, none) => (sealedCodec hashKey).Decode name (String.mk (bytes.map Char.ofNat)) dst

/-! ## Lemmas -/

theorem dropFront_append (pre l : List Char) : dropFront pre (pre ++ l) = some l := by
  induction pre with
  | nil => rfl
  | cons p pre ih => simp [dropFront, ih]

theorem keyedCodec_reversible (hashKey : List Nat) : Reversible (keyedCodec hashKey) := by
  intro name value tok dst h
  simp only [keyedCodec] at h ⊢
  split at h
  · simp at h
  · simp only [Prod.mk.injEq, and_true] at h
    subst h
    simp [dropFront_append]

theorem read_of_current_ok (m : Manager) (key encodedValue v : String)
    (h : m.CurrentSecureCookieInstance.Decode key encodedValue "" = (v, none)) :
    m.Read key encodedValue = ((v, none), []) := by
  simp [Manager.Read, h]

theorem read_of_current_err (m : Manager) (key encodedValue v : String) (e : Error)
    (h : m.CurrentSecureCookieInstance.Decode key encodedValue "" = (v, some e)) :
    m.Read key encodedValue =
      (m.PreviousSecureCookieInstance.Decode key encodedValue v, [fallbackLine e]) := by
  simp [Manager.Read, h]

theorem sign_of_encode_ok (m : Manager) (key value tok : String)
    (h : m.CurrentSecureCookieInstance.Encode key value = (tok, none)) :
    m.Sign key value = (tok, none) := by
  simp [Manager.Sign, h]

theorem sign_of_encode_err (m : Manager) (key value tok : String) (e : Error)
    (h : m.CurrentSecureCookieInstance.Encode key value = (tok, some e)) :
    m.Sign key value = ("", some e) := by
  simp [Manager.Sign, h]

theorem encode_of_sign_ok (m : Manager) (key value tok : String)
    (h : m.Sign key value = (tok, none)) :
    m.CurrentSecureCookieInstance.Encode key value = (tok, none) := by
  unfold Manager.Sign at h
  split at h
  · simp at h
  · rename_i t ht
    simp only [Prod.mk.injEq, and_true] at h
    rw [ht, h]

theorem newManager_of_current_err (lib : Lib) (o : ManagerOptions) (e : Error)
    (h : (fromBase64 lib o.CurrentCookieSecret).2 = some e) :
    NewManager lib o = (none, some e) := by
  unfold NewManager
  rcases hc : fromBase64 lib o.CurrentCookieSecret with ⟨cb, _ | e2⟩
  · rw [hc] at h; simp at h
  · rw [hc] at h; simp at h; simp [h]

theorem newManager_of_current_length (lib : Lib) (o : ManagerOptions)
    (h : (fromBase64 lib o.CurrentCookieSecret).2 = none)
    (h32 : (fromBase64 lib o.CurrentCookieSecret).1.length ≠ 32)
    (h64 : (fromBase64 lib o.CurrentCookieSecret).1.length ≠ 64) :
    NewManager lib o = (none, some errCurrentLength) := by
  unfold NewManager
  rcases hc : fromBase64 lib o.CurrentCookieSecret with ⟨cb, _ | e2⟩
  · rw [hc] at h32 h64; simp at h32 h64; simp [h32, h64]
  · rw [hc] at h; simp at h

theorem newManager_of_previous_err (lib : Lib) (o : ManagerOptions) (e : Error)
    (hv : ValidSecret lib o.CurrentCookieSecret)
    (h : (fromBase64 lib o.PreviousCookieSecret).2 = some e) :
    NewManager lib o = (none, some e) := by
  unfold NewManager
  obtain ⟨hn, hl⟩ := hv
  rcases hc : fromBase64 lib o.CurrentCookieSecret with ⟨cb, _ | e2⟩
  · rw [hc] at hl
    simp only [] at hl
    have hl2 : ¬ (cb.length ≠ 32 ∧ cb.length ≠ 64) := by omega
    rcases hp : fromBase64 lib o.PreviousCookieSecret with ⟨pb, _ | e3⟩
    · rw [hp] at h; simp at h
    · rw [hp] at h; simp at h; simp [hl2, h]
  · rw [hc] at hn; simp at hn

theorem newManager_of_previous_length (lib : Lib) (o : ManagerOptions)
    (hv : ValidSecret lib o.CurrentCookieSecret)
    (h : (fromBase64 lib o.PreviousCookieSecret).2 = none)
    (h32 : (fromBase64 lib o.PreviousCookieSecret).1.length ≠ 32)
    (h64 : (fromBase64 lib o.PreviousCookieSecret).1.length ≠ 64) :
    NewManager lib o = (none, some errPreviousLength) := by
  unfold NewManager
  obtain ⟨hn, hl⟩ := hv
  rcases hc : fromBase64 lib o.CurrentCookieSecret with ⟨cb, _ | e2⟩
  · rw [hc] at hl
    simp only [] at hl
    have hl2 : ¬ (cb.length ≠ 32 ∧ cb.length ≠ 64) := by omega
    rcases hp : fromBase64 lib o.PreviousCookieSecret with ⟨pb, _ | e3⟩
    · rw [hp] at h32 h64; simp at h32 h64; simp [hl2, h32, h64]
    · rw [hp] at h; simp at h
  · rw [hc] at hn; simp at hn

theorem newManager_of_valid (lib : Lib) (o : ManagerOptions)
    (hv : ValidSecret lib o.CurrentCookieSecret)
    (hp : ValidSecret lib o.PreviousCookieSecret) :
    NewManager lib o = (some (builtManager lib o), none) := by
  unfold NewManager builtManager
  obtain ⟨hn, hl⟩ := hv
  obtain ⟨hpn, hpl⟩ := hp
  rcases hc : fromBase64 lib o.CurrentCookieSecret with ⟨cb, _ | e2⟩
  · rw [hc] at hl
    simp only [] at hl
    have hl2 : ¬ (cb.length ≠ 32 ∧ cb.length ≠ 64) := by omega
    rcases hq : fromBase64 lib o.PreviousCookieSecret with ⟨pb, _ | e3⟩
    · rw [hq] at hpl
      simp only [] at hpl
      have hl3 : ¬ (pb.length ≠ 32 ∧ pb.length ≠ 64) := by omega
      simp [hl2, hl3]
    · rw [hq] at hpn; simp at hpn
  · rw [hc] at hn; simp at hn

theorem newManager_some (lib : Lib) (o : ManagerOptions) (m : Manager)
    (h : NewManager lib o = (some m, none)) :
    ValidSecret lib o.CurrentCookieSecret ∧ ValidSecret lib o.PreviousCookieSecret ∧
      m = builtManager lib o := by
  have key : ValidSecret lib o.CurrentCookieSecret ∧ ValidSecret lib o.PreviousCookieSecret := by
    by_contra hne
    rcases hc : (fromBase64 lib o.CurrentCookieSecret).2 with _ | e
    · by_cases h32 : (fromBase64 lib o.CurrentCookieSecret).1.length = 32 ∨
          (fromBase64 lib o.CurrentCookieSecret).1.length = 64
      · have hv : ValidSecret lib o.CurrentCookieSecret := ⟨hc, h32⟩
        rcases hp : (fromBase64 lib o.PreviousCookieSecret).2 with _ | e
        · by_cases hp32 : (fromBase64 lib o.PreviousCookieSecret).1.length = 32 ∨
              (fromBase64 lib o.PreviousCookieSecret).1.length = 64
          · exact hne ⟨hv, hp, hp32⟩
          · rw [newManager_of_previous_length lib o hv hp (fun x => hp32 (Or.inl x))
              (fun x => hp32 (Or.inr x))] at h
            simp at h
        · rw [newManager_of_previous_err lib o e hv hp] at h
          simp at h
      · rw [newManager_of_current_length lib o hc (fun x => h32 (Or.inl x))
          (fun x => h32 (Or.inr x))] at h
        simp at h
    · rw [newManager_of_current_err lib o e hc] at h
      simp at h
  refine ⟨key.1, key.2, ?_⟩
  rw [newManager_of_valid lib o key.1 key.2] at h
  simp only [Prod.mk.injEq, Option.some.injEq, and_true] at h
  exact h.symm

theorem dropFront_cons_ne (p c : Char) (pre l : List Char) (h : p ≠ c) :
    dropFront (p :: pre) (c :: l) = none := by
  simp [dropFront, h]

theorem keyedCodec_rejects (a b : Nat) (ka kb : List Nat) (h : Char.ofNat b ≠ Char.ofNat a) :
    Rejects (keyedCodec (b :: kb)) (keyedCodec (a :: ka)) := by
  intro name value tok dst henc
  simp only [keyedCodec] at henc ⊢
  split at henc
  · simp at henc
  · simp only [Prod.mk.injEq, and_true] at henc
    subst henc
    have hd : dropFront (codecHeader (b :: kb) name)
        (codecHeader (a :: ka) name ++ value.data) = none := by
      simp only [codecHeader, List.map_cons, List.cons_append]
      exact dropFront_cons_ne _ _ _ _ h
    simp [hd]

theorem afterPadding_error (rest : List Char) (si : Nat) (out : List Nat) (e : Error)
    (h : (afterPadding rest si out).2 = some e) : ∃ n, e = .corruptInput n := by
  unfold afterPadding at h
  split at h
  · simp at h
  · simp only [Option.some.injEq] at h
    exact ⟨_, h.symm⟩

theorem decodeFrom_error (srcLen : Nat) (src : List Char) :
    ∀ (si j : Nat) (dbuf out : List Nat) (e : Error),
      (decodeFrom srcLen src si j dbuf out).2 = some e → ∃ n, e = .corruptInput n := by
  induction src with
  | nil =>
    intro si j dbuf out e h
    unfold decodeFrom at h
    split at h
    · simp at h
    · simp only [Option.some.injEq] at h
      exact ⟨_, h.symm⟩
  | cons c rest ih =>
    intro si j dbuf out e h
    unfold decodeFrom at h
    split at h
    · split at h
      · exact ih _ _ _ _ e h
      · exact ih _ _ _ _ e h
    · split at h
      · exact ih _ _ _ _ e h
      · split at h
        · simp only [Option.some.injEq] at h
          exact ⟨_, h.symm⟩
        · split at h
          · simp only [Option.some.injEq] at h
            exact ⟨_, h.symm⟩
          · split at h
            · split at h
              · simp only [Option.some.injEq] at h
                exact ⟨_, h.symm⟩
              · split at h
                · simp only [Option.some.injEq] at h
                  exact ⟨_, h.symm⟩
                · exact afterPadding_error _ _ _ e h
            · exact afterPadding_error _ _ _ e h

theorem stdDecodeString_error (s : String) (e : Error) (h : (stdDecodeString s).2 = some e) :
    ∃ n, e = .corruptInput n :=
  decodeFrom_error _ _ _ _ _ _ e h


/-! ## Name binding and tamper evidence -/

theorem toDigitsCore_append :
    ∀ (fuel n : Nat) (ds : List Char), n < fuel →
      Nat.toDigitsCore 10 fuel n ds = Nat.toDigits 10 n ++ ds := by
  intro fuel
  induction fuel using Nat.strong_induction_on with
  | _ fuel ih =>
    intro n ds hn
    cases fuel with
    | zero => omega
    | succ f =>
      by_cases h0 : n / 10 = 0
      · simp [Nat.toDigits, Nat.toDigitsCore, h0]
      · have hlt : n / 10 < n := by omega
        have e1 : Nat.toDigitsCore 10 (f + 1) n ds
            = Nat.toDigitsCore 10 f (n / 10) ((n % 10).digitChar :: ds) := by
          simp [Nat.toDigitsCore, h0]
        have e2 : Nat.toDigits 10 n
            = Nat.toDigitsCore 10 n (n / 10) [(n % 10).digitChar] := by
          simp [Nat.toDigits, Nat.toDigitsCore, h0]
        rw [e1, e2, ih f (by omega) (n / 10) _ (by omega), ih n (by omega) (n / 10) _ hlt]
        simp

theorem toDigits_small (n : Nat) (h : n < 10) : Nat.toDigits 10 n = [n.digitChar] := by
  have h0 : n / 10 = 0 := by omega
  have h1 : n % 10 = n := by omega
  simp [Nat.toDigits, Nat.toDigitsCore, h0, h1]

theorem toDigits_large (n : Nat) (h : 10 ≤ n) :
    Nat.toDigits 10 n = Nat.toDigits 10 (n / 10) ++ [(n % 10).digitChar] := by
  have h0 : n / 10 ≠ 0 := by omega
  have e2 : Nat.toDigits 10 n
      = Nat.toDigitsCore 10 n (n / 10) [(n % 10).digitChar] := by
    simp [Nat.toDigits, Nat.toDigitsCore, h0]
  rw [e2, toDigitsCore_append n (n / 10) _ (by omega)]

theorem digitChar_ne_colon (d : Nat) (h : d < 10) : d.digitChar ≠ ':' := by
  interval_cases d <;> decide

theorem digitChar_inj (a b : Nat) (ha : a < 10) (hb : b < 10)
    (h : a.digitChar = b.digitChar) : a = b := by
  interval_cases a <;> interval_cases b <;> first | rfl | (exact absurd h (by decide))

theorem toDigits_ne_nil (n : Nat) : Nat.toDigits 10 n ≠ [] := by
  by_cases h : n < 10
  · rw [toDigits_small n h]; simp
  · rw [toDigits_large n (by omega)]; simp

theorem colon_not_mem_toDigits (n : Nat) : ':' ∉ Nat.toDigits 10 n := by
  induction n using Nat.strong_induction_on with
  | _ n ih =>
    by_cases h : n < 10
    · rw [toDigits_small n h]
      simp only [List.mem_singleton]
      exact fun e => digitChar_ne_colon n h e.symm
    · rw [toDigits_large n (by omega)]
      simp only [List.mem_append, List.mem_singleton, not_or]
      exact ⟨ih (n / 10) (by omega), fun e => digitChar_ne_colon (n % 10) (by omega) e.symm⟩

theorem toDigits_injective (n : Nat) :
    ∀ m, Nat.toDigits 10 n = Nat.toDigits 10 m → n = m := by
  induction n using Nat.strong_induction_on with
  | _ n ih =>
    intro m h
    by_cases hn : n < 10
    · by_cases hm : m < 10
      · rw [toDigits_small n hn, toDigits_small m hm] at h
        exact digitChar_inj n m hn hm (by simpa using h)
      · rw [toDigits_small n hn, toDigits_large m (by omega)] at h
        have hl := congrArg List.length h
        have := List.length_pos.mpr (toDigits_ne_nil (m / 10))
        simp only [List.length_append, List.length_singleton] at hl
        omega
    · by_cases hm : m < 10
      · rw [toDigits_large n (by omega), toDigits_small m hm] at h
        have hl := congrArg List.length h
        have := List.length_pos.mpr (toDigits_ne_nil (n / 10))
        simp only [List.length_append, List.length_singleton] at hl
        omega
      · rw [toDigits_large n (by omega), toDigits_large m (by omega)] at h
        have h2 := List.append_inj' h rfl
        have e1 := ih (n / 10) (by omega) (m / 10) h2.1
        have e2 := digitChar_inj (n % 10) (m % 10) (by omega) (by omega) (by simpa using h2.2)
        omega

theorem toString_data (n : Nat) : (toString n).data = Nat.toDigits 10 n := by
  rfl

theorem dropFront_eq_some (pre : List Char) :
    ∀ (l r : List Char), dropFront pre l = some r → l = pre ++ r := by
  induction pre with
  | nil =>
    intro l r h
    simp only [dropFront, Option.some.injEq] at h
    simp [h]
  | cons p pre ih =>
    intro l r h
    cases l with
    | nil => simp [dropFront] at h
    | cons c l =>
      by_cases hpc : p = c
      · subst hpc
        simp only [dropFront, if_true] at h
        rw [ih l r h]
        rfl
      · simp [dropFront, hpc] at h

theorem split_at_colon (d1 : List Char) :
    ∀ (d2 x y : List Char), ':' ∉ d1 → ':' ∉ d2 → d1 ++ ':' :: x = d2 ++ ':' :: y →
      d1 = d2 ∧ x = y := by
  induction d1 with
  | nil =>
    intro d2 x y _ h2 h
    cases d2 with
    | nil => simpa using h
    | cons c d2 =>
      simp only [List.nil_append, List.cons_append, List.cons.injEq] at h
      exact absurd (by rw [h.1]; exact List.mem_cons_self _ _) h2
  | cons a d1 ih =>
    intro d2 x y h1 h2 h
    cases d2 with
    | nil =>
      simp only [List.nil_append, List.cons_append, List.cons.injEq] at h
      exact absurd (by rw [← h.1]; exact List.mem_cons_self _ _) h1
    | cons c d2 =>
      simp only [List.cons_append, List.cons.injEq] at h
      have := ih d2 x y (fun hm => h1 (List.mem_cons_of_mem _ hm))
        (fun hm => h2 (List.mem_cons_of_mem _ hm)) h.2
      exact ⟨by rw [h.1, this.1], this.2⟩

theorem keyedCodec_nameBound (hashKey : List Nat) :
    NameBound (keyedCodec hashKey) (keyedCodec hashKey) := by
  intro name1 name2 value tok dst hne henc
  simp only [keyedCodec] at henc ⊢
  split at henc
  · simp at henc
  · simp only [Prod.mk.injEq, and_true] at henc
    subst henc
    rcases hd : dropFront (codecHeader hashKey name2)
        (codecHeader hashKey name1 ++ value.data) with _ | r
    · simp
    · exfalso
      have h := dropFront_eq_some _ _ _ hd
      simp only [codecHeader, List.append_assoc, List.cons_append, List.nil_append,
        List.append_cancel_left_eq, List.cons.injEq, true_and] at h
      rw [toString_data, toString_data] at h
      obtain ⟨hlen, hrest⟩ := split_at_colon _ _ _ _ (colon_not_mem_toDigits _)
        (colon_not_mem_toDigits _) h
      have hl : name1.data.length = name2.data.length := toDigits_injective _ _ hlen
      have hdata := (List.append_inj hrest hl).1
      exact hne (String.ext hdata)

theorem keyedCodec_nameBound_of_ne (a b : Nat) (ka kb : List Nat)
    (h : Char.ofNat b ≠ Char.ofNat a) :
    NameBound (keyedCodec (b :: kb)) (keyedCodec (a :: ka)) := by
  intro name1 name2 value tok dst _ henc
  simp only [keyedCodec] at henc ⊢
  split at henc
  · simp at henc
  · simp only [Prod.mk.injEq, and_true] at henc
    subst henc
    have hd : dropFront (codecHeader (b :: kb) name2)
        (codecHeader (a :: ka) name1 ++ value.data) = none := by
      simp only [codecHeader, List.map_cons, List.cons_append]
      exact dropFront_cons_ne _ _ _ _ h
    simp [hd]

theorem undouble_changed (vs : List Char) :
    ∀ (pre : List Char) (x y : Char) (suf : List Char), x ≠ y →
      double vs = pre ++ x :: suf → undouble (pre ++ y :: suf) = none := by
  induction vs with
  | nil =>
    intro pre x y suf _ h
    simp [double] at h
  | cons c vs ih =>
    intro pre x y suf hxy h
    match pre, h with
    | [], h =>
      simp only [double, List.nil_append, List.cons.injEq] at h
      obtain ⟨h1, h2⟩ := h
      subst h1 h2
      simp [undouble, hxy.symm]
    | [p], h =>
      simp only [double, List.cons_append, List.nil_append, List.cons.injEq] at h
      obtain ⟨h1, h2, h3⟩ := h
      subst h1 h2 h3
      simp [undouble, hxy]
    | p :: q :: pre2, h =>
      simp only [double, List.cons_append, List.cons.injEq] at h
      obtain ⟨h1, h2, h3⟩ := h
      subst h1 h2
      simp [undouble, ih pre2 x y suf hxy h3]

theorem sealedCodec_tamperEvident (k k2 : List Nat) :
    TamperEvident (sealedCodec k2) (sealedCodec k) := by
  intro name value tok tok2 dst henc hch
  obtain ⟨pre, x, y, suf, hxy, ha, hb⟩ := hch
  simp only [sealedCodec] at henc ⊢
  split at henc
  · simp at henc
  · rename_i t ht
    simp only [Prod.mk.injEq, and_true] at henc
    subst henc
    rw [hb, undouble_changed t.data pre x y suf hxy ha]
    simp

/-! ## Read and Sign -/

/-- C1: when the current codec decodes the token (into a fresh destination, as `Read` calls
it) to `v` without error, `Read` returns `v` and no error, and every manager with the same
current codec, whatever its previous codec, gives the same result. -/
theorem read_current_success (m : Manager) (key encodedValue v : String)
    (h : m.CurrentSecureCookieInstance.Decode key encodedValue "" = (v, none)) :
    (m.Read key encodedValue).1 = (v, none) ∧
      ∀ m2 : Manager, m2.CurrentSecureCookieInstance = m.CurrentSecureCookieInstance →
        m2.Read key encodedValue = m.Read key encodedValue := by
  refine ⟨by rw [read_of_current_ok m key encodedValue v h], ?_⟩
  intro m2 h2
  rw [read_of_current_ok m key encodedValue v h,
    read_of_current_ok m2 key encodedValue v (by rw [h2]; exact h)]

/-- The keyed manager with current key `[66]` reads a token of that key. -/
theorem read_current_success_witness :
    (keyedCodec [66]).Decode "sid" "B:3:sid|hello" "" = ("hello", none) ∧
      ((keyedManager [66] [65]).Read "sid" "B:3:sid|hello").1 = ("hello", none) :=
  ⟨by decide,
    (read_current_success (keyedManager [66] [65]) "sid" "B:3:sid|hello" "hello"
      (by decide)).1⟩

/-- C2: when the current codec fails on the token, leaving `v1` in the destination, `Read`
returns exactly what the previous codec's `Decode` returns for the same name and token on
that destination: its value when it succeeds, and its own error when it fails. -/
theorem read_fallback_outcome (m : Manager) (key encodedValue v1 : String) (e : Error)
    (h : m.CurrentSecureCookieInstance.Decode key encodedValue "" = (v1, some e)) :
    (m.Read key encodedValue).1 = m.PreviousSecureCookieInstance.Decode key encodedValue v1 ∧
      (∀ v, m.PreviousSecureCookieInstance.Decode key encodedValue v1 = (v, none) →
        (m.Read key encodedValue).1 = (v, none)) ∧
      (∀ v e2, m.PreviousSecureCookieInstance.Decode key encodedValue v1 = (v, some e2) →
        (m.Read key encodedValue).1.2 = some e2) := by
  rw [read_of_current_err m key encodedValue v1 e h]
  refine ⟨rfl, ?_, ?_⟩
  · intro v hv
    exact hv
  · intro v e2 hv
    simp [hv]

/-- The keyed manager with keys `[66]`, `[65]` reads a token of the previous key `[65]`. -/
theorem read_fallback_outcome_witness :
    (keyedCodec [66]).Decode "sid" "A:3:sid|hello" "" = ("", some errNotValid) ∧
      ((keyedManager [66] [65]).Read "sid" "A:3:sid|hello").1 = ("hello", none) :=
  ⟨by decide,
    (read_fallback_outcome (keyedManager [66] [65]) "sid" "A:3:sid|hello" "" errNotValid
      (by decide)).2.1 "hello" (by decide)⟩

/-- C3: `Sign` returns the token of the current codec's `Encode` when that succeeds and its
error (with an empty token) when it fails; the previous codec plays no part, so managers
with the same current codec sign alike. -/
theorem sign_current_only (m : Manager) (key value : String) :
    (∀ tok, m.CurrentSecureCookieInstance.Encode key value = (tok, none) →
        m.Sign key value = (tok, none)) ∧
      (∀ tok e, m.CurrentSecureCookieInstance.Encode key value = (tok, some e) →
        m.Sign key value = ("", some e)) ∧
      (∀ m2 : Manager, m2.CurrentSecureCookieInstance = m.CurrentSecureCookieInstance →
        m2.Sign key value = m.Sign key value) := by
  refine ⟨sign_of_encode_ok m key value, sign_of_encode_err m key value, ?_⟩
  intro m2 h2
  simp [Manager.Sign, h2]

/-- Signing with current key `[66]` gives the token of that key, whatever the previous key. -/
theorem sign_current_only_witness :
    (keyedManager [66] [65]).Sign "sid" "hello" = ("B:3:sid|hello", none) ∧
      (keyedManager [66] [67]).Sign "sid" "hello" = (keyedManager [66] [65]).Sign "sid" "hello" :=
  ⟨(sign_current_only (keyedManager [66] [65]) "sid" "hello").1 "B:3:sid|hello" (by decide),
    (sign_current_only (keyedManager [66] [65]) "sid" "hello").2.2 (keyedManager [66] [67]) rfl⟩

/-- C4: round trip.  If the current codec decodes what it encodes and `Sign` succeeds with a
token, `Read` of that token under the same name returns the value and no error, and so does
every manager with the same current codec, whatever its previous codec. -/
theorem read_sign_roundtrip (m : Manager) (key value tok : String)
    (hrev : ∀ n v t, m.CurrentSecureCookieInstance.Encode n v = (t, none) →
      m.CurrentSecureCookieInstance.Decode n t "" = (v, none))
    (hs : m.Sign key value = (tok, none)) :
    (m.Read key tok).1 = (value, none) ∧
      ∀ m2 : Manager, m2.CurrentSecureCookieInstance = m.CurrentSecureCookieInstance →
        (m2.Read key tok).1 = (value, none) := by
  have hd := hrev key value tok (encode_of_sign_ok m key value tok hs)
  refine ⟨by rw [read_of_current_ok m key tok value hd], ?_⟩
  intro m2 h2
  rw [read_of_current_ok m2 key tok value (by rw [h2]; exact hd)]

/-- The keyed manager reads back what it signed. -/
theorem read_sign_roundtrip_witness :
    (keyedManager [66] [65]).Sign "sid" "hello" = ("B:3:sid|hello", none) ∧
      ((keyedManager [66] [65]).Read "sid" "B:3:sid|hello").1 = ("hello", none) :=
  ⟨by decide,
    (read_sign_roundtrip (keyedManager [66] [65]) "sid" "hello" "B:3:sid|hello"
      (fun n v t h => keyedCodec_reversible [66] n v t "" h) (by decide)).1⟩

/-- C5: rotation fallback.  Let `M1` be built by `NewManager` from the secrets (A, A) and
`M2` from (B, A).  If the codec of A decodes what it encodes and, when the bytes of B differ
from those of A, the codec of B fails on the tokens of A, then every token `M1.Sign`
produces for a name and value is read by `M2.Read` under that name as the value, without
error. -/
theorem rotation_fallback (lib : Lib) (sA sB : String) (ss1 ss2 : SameSite) (p1 p2 : String)
    (M1 M2 : Manager)
    (h1 : NewManager lib ⟨sA, sA, ss1, p1⟩ = (some M1, none))
    (h2 : NewManager lib ⟨sB, sA, ss2, p2⟩ = (some M2, none))
    (hrev : Reversible (lib.New (fromBase64 lib sA).1))
    (hrej : (fromBase64 lib sB).1 ≠ (fromBase64 lib sA).1 →
      Rejects (lib.New (fromBase64 lib sB).1) (lib.New (fromBase64 lib sA).1))
    (name value tok : String) (hs : M1.Sign name value = (tok, none)) :
    (M2.Read name tok).1 = (value, none) := by
  obtain ⟨-, -, e1⟩ := newManager_some lib _ M1 h1
  obtain ⟨-, -, e2⟩ := newManager_some lib _ M2 h2
  have henc : (lib.New (fromBase64 lib sA).1).Encode name value = (tok, none) := by
    have := encode_of_sign_ok M1 name value tok hs
    rw [e1] at this
    exact this
  by_cases hAB : (fromBase64 lib sB).1 = (fromBase64 lib sA).1
  · have hd : M2.CurrentSecureCookieInstance.Decode name tok "" = (value, none) := by
      rw [e2]
      show (lib.New (fromBase64 lib sB).1).Decode name tok "" = (value, none)
      rw [hAB]
      exact hrev name value tok "" henc
    rw [read_of_current_ok M2 name tok value hd]
  · have hr := hrej hAB name value tok "" henc
    rcases hd : (lib.New (fromBase64 lib sB).1).Decode name tok "" with ⟨v1, _ | e⟩
    · rw [hd] at hr
      exact absurd rfl hr
    · have hd2 : M2.CurrentSecureCookieInstance.Decode name tok "" = (v1, some e) := by
        rw [e2]
        exact hd
      rw [read_of_current_err M2 name tok v1 e hd2, e2]
      exact hrev name value tok v1 henc

/-- Managers built from `secretA`, `secretA` and from `secretB`, `secretA`: the second reads what the first signed. -/
theorem rotation_fallback_witness :
    (keyedManager bytesA bytesA).Sign "sid" "hello"
        = (((keyedCodec bytesA).Encode "sid" "hello").1, none) ∧
      ((keyedManager bytesB bytesA).Read "sid" ((keyedCodec bytesA).Encode "sid" "hello").1).1
        = ("hello", none) :=
  ⟨rfl,
    rotation_fallback stdLib secretA secretB 0 0 "" "" (keyedManager bytesA bytesA)
      (keyedManager bytesB bytesA) rfl rfl (keyedCodec_reversible _)
      (fun _ => keyedCodec_rejects 0 4 (List.replicate 31 0) (List.replicate 31 0) (by decide))
      "sid" "hello" _ rfl⟩

/-- C6: `Read` returns an error exactly when the current codec fails on the token and the
previous codec, called next on the same destination, fails too; hence a manager built from
the secrets (C, B) fails to read every token produced under a secret A whose tokens both
the codec of C and the codec of B reject. -/
theorem read_error_iff_both_fail :
    (∀ (m : Manager) (key encodedValue : String),
      (m.Read key encodedValue).1.2 ≠ none ↔
        (m.CurrentSecureCookieInstance.Decode key encodedValue "").2 ≠ none ∧
          (m.PreviousSecureCookieInstance.Decode key encodedValue
            (m.CurrentSecureCookieInstance.Decode key encodedValue "").1).2 ≠ none) ∧
    (∀ (lib : Lib) (sC sB : String) (ss : SameSite) (p : String) (M3 : Manager)
      (A : List Nat),
      NewManager lib ⟨sC, sB, ss, p⟩ = (some M3, none) →
      Rejects (lib.New (fromBase64 lib sC).1) (lib.New A) →
      Rejects (lib.New (fromBase64 lib sB).1) (lib.New A) →
      ∀ name value tok, (lib.New A).Encode name value = (tok, none) →
        (M3.Read name tok).1.2 ≠ none) := by
  have part1 : ∀ (m : Manager) (key encodedValue : String),
      (m.Read key encodedValue).1.2 ≠ none ↔
        (m.CurrentSecureCookieInstance.Decode key encodedValue "").2 ≠ none ∧
          (m.PreviousSecureCookieInstance.Decode key encodedValue
            (m.CurrentSecureCookieInstance.Decode key encodedValue "").1).2 ≠ none := by
    intro m key encodedValue
    rcases hd : m.CurrentSecureCookieInstance.Decode key encodedValue "" with ⟨v, _ | e⟩
    · rw [read_of_current_ok m key encodedValue v hd]
      simp
    · rw [read_of_current_err m key encodedValue v e hd]
      simp
  refine ⟨part1, ?_⟩
  intro lib sC sB ss p M3 A h3 hC hB name value tok henc
  obtain ⟨-, -, e3⟩ := newManager_some lib _ M3 h3
  rw [part1, e3]
  exact ⟨hC name value tok _ henc, hB name value tok _ henc⟩

/-- The manager built from `secretC`, `secretB` fails on a token of the key of `secretA`. -/
theorem read_error_iff_both_fail_witness :
    ((keyedManager bytesC bytesB).Read "sid"
      ((keyedCodec bytesA).Encode "sid" "hello").1).1.2 ≠ none :=
  read_error_iff_both_fail.2 stdLib secretC secretB 0 "" (keyedManager bytesC bytesB) bytesA
    rfl (keyedCodec_rejects 0 8 (List.replicate 31 0) (List.replicate 31 0) (by decide))
    (keyedCodec_rejects 0 4 (List.replicate 31 0) (List.replicate 31 0) (by decide))
    "sid" "hello" _ rfl

/-! ## Construction -/

/-- C7: `NewManager` returns a manager and no error if and only if both secrets are valid
base64 and each decodes to 32 or 64 bytes.  In particular it fails when either secret
decodes to 31, 33 or 0 bytes or is not base64, and it succeeds for a 32-byte secret with a
64-byte one in either order. -/
theorem newManager_succeeds_iff (lib : Lib) (o : ManagerOptions) :
    ((∃ m, NewManager lib o = (some m, none)) ↔
      ValidSecret lib o.CurrentCookieSecret ∧ ValidSecret lib o.PreviousCookieSecret) ∧
    ((NewManager lib o).2 = none ↔
      ValidSecret lib o.CurrentCookieSecret ∧ ValidSecret lib o.PreviousCookieSecret) ∧
    (∀ s, s = o.CurrentCookieSecret ∨ s = o.PreviousCookieSecret →
      (fromBase64 lib s).1.length = 31 ∨ (fromBase64 lib s).1.length = 33 ∨
        (fromBase64 lib s).1.length = 0 ∨ (fromBase64 lib s).2 ≠ none →
      (NewManager lib o).1.isNone ∧ (NewManager lib o).2 ≠ none) ∧
    ((fromBase64 lib o.CurrentCookieSecret).2 = none →
      (fromBase64 lib o.PreviousCookieSecret).2 = none →
      ((fromBase64 lib o.CurrentCookieSecret).1.length = 32 ∧
          (fromBase64 lib o.PreviousCookieSecret).1.length = 64) ∨
        ((fromBase64 lib o.CurrentCookieSecret).1.length = 64 ∧
          (fromBase64 lib o.PreviousCookieSecret).1.length = 32) →
      ∃ m, NewManager lib o = (some m, none)) := by
  have ok : ValidSecret lib o.CurrentCookieSecret ∧ ValidSecret lib o.PreviousCookieSecret →
      NewManager lib o = (some (builtManager lib o), none) :=
    fun h => newManager_of_valid lib o h.1 h.2
  have bad : ¬ (ValidSecret lib o.CurrentCookieSecret ∧
      ValidSecret lib o.PreviousCookieSecret) →
      (NewManager lib o).1.isNone ∧ (NewManager lib o).2 ≠ none := by
    intro hne
    rcases hc : (fromBase64 lib o.CurrentCookieSecret).2 with _ | e
    · by_cases h32 : (fromBase64 lib o.CurrentCookieSecret).1.length = 32 ∨
          (fromBase64 lib o.CurrentCookieSecret).1.length = 64
      · have hv : ValidSecret lib o.CurrentCookieSecret := ⟨hc, h32⟩
        rcases hp : (fromBase64 lib o.PreviousCookieSecret).2 with _ | e
        · by_cases hp32 : (fromBase64 lib o.PreviousCookieSecret).1.length = 32 ∨
              (fromBase64 lib o.PreviousCookieSecret).1.length = 64
          · exact absurd ⟨hv, hp, hp32⟩ hne
          · rw [newManager_of_previous_length lib o hv hp (fun x => hp32 (Or.inl x))
              (fun x => hp32 (Or.inr x))]
            simp
        · rw [newManager_of_previous_err lib o e hv hp]
          simp
      · rw [newManager_of_current_length lib o hc (fun x => h32 (Or.inl x))
          (fun x => h32 (Or.inr x))]
        simp
    · rw [newManager_of_current_err lib o e hc]
      simp
  refine ⟨⟨?_, fun h => ⟨_, ok h⟩⟩, ⟨?_, fun h => by rw [ok h]⟩, ?_, ?_⟩
  · rintro ⟨m, hm⟩
    exact ⟨(newManager_some lib o m hm).1, (newManager_some lib o m hm).2.1⟩
  · intro h
    by_contra hne
    exact (bad hne).2 h
  · intro s hs hlen
    apply bad
    rintro ⟨⟨hc, hcl⟩, ⟨hp, hpl⟩⟩
    rcases hs with rfl | rfl
    · rcases hlen with h | h | h | h
      · omega
      · omega
      · omega
      · exact h hc
    · rcases hlen with h | h | h | h
      · omega
      · omega
      · omega
      · exact h hp
  · intro hc hp hl
    refine ⟨_, ok ⟨⟨hc, ?_⟩, ⟨hp, ?_⟩⟩⟩
    · rcases hl with h | h
      · exact Or.inl h.1
      · exact Or.inr h.1
    · rcases hl with h | h
      · exact Or.inr h.2
      · exact Or.inl h.2

/-- Secrets of 31, 33 and 0 bytes and a string that is not base64 are rejected; 32 with 64 bytes is accepted in both orders. -/
theorem newManager_succeeds_iff_witness :
    (NewManager stdLib ⟨secret31, secretA, 0, ""⟩).2 ≠ none ∧
      (NewManager stdLib ⟨secretA, secret33, 0, ""⟩).2 ≠ none ∧
      (NewManager stdLib ⟨"", secretA, 0, ""⟩).2 ≠ none ∧
      (NewManager stdLib ⟨secretA, notBase64, 0, ""⟩).2 ≠ none ∧
      (∃ m, NewManager stdLib ⟨secretA, secret64, 0, ""⟩ = (some m, none)) ∧
      (∃ m, NewManager stdLib ⟨secret64, secretA, 0, ""⟩ = (some m, none)) :=
  ⟨((newManager_succeeds_iff stdLib ⟨secret31, secretA, 0, ""⟩).2.2.1 secret31 (Or.inl rfl)
      (Or.inl (by decide))).2,
    ((newManager_succeeds_iff stdLib ⟨secretA, secret33, 0, ""⟩).2.2.1 secret33 (Or.inr rfl)
      (Or.inr (Or.inl (by decide)))).2,
    ((newManager_succeeds_iff stdLib ⟨"", secretA, 0, ""⟩).2.2.1 "" (Or.inl rfl)
      (Or.inr (Or.inr (Or.inl (by decide))))).2,
    ((newManager_succeeds_iff stdLib ⟨secretA, notBase64, 0, ""⟩).2.2.1 notBase64 (Or.inr rfl)
      (Or.inr (Or.inr (Or.inr (by decide))))).2,
    (newManager_succeeds_iff stdLib ⟨secretA, secret64, 0, ""⟩).2.2.2 (by decide) (by decide)
      (Or.inl (by decide)),
    (newManager_succeeds_iff stdLib ⟨secret64, secretA, 0, ""⟩).2.2.2 (by decide) (by decide)
      (Or.inr (by decide))⟩

/-- C8, as stated, fails: the current secret is base64 of 31 bytes and the previous secret
is not base64 (its decoding fails at offset 3), yet `NewManager` returns the length error
of the current secret and not the decoding error. -/
theorem newManager_length_error_before_decoding :
    fromBase64 stdLib secret31 = (List.replicate 31 0, none) ∧
      (fromBase64 stdLib notBase64).2 = some (.corruptInput 3) ∧
      (NewManager stdLib ⟨secret31, notBase64, 0, ""⟩).1.isNone ∧
      (NewManager stdLib ⟨secret31, notBase64, 0, ""⟩).2 = some errCurrentLength := by
  decide

/-- C8, amended: when the current secret is not valid base64, `NewManager` fails with the
error of its base64 decoding, whatever the previous secret is; when the current secret is
valid base64 of 32 or 64 bytes and the previous secret is not valid base64, `NewManager`
fails with the error of the previous secret's base64 decoding.  With the standard decoder
that error is a `CorruptInputError`, different from both length errors. -/
theorem newManager_decoding_error (lib : Lib) (o : ManagerOptions) :
    (∀ e, (fromBase64 lib o.CurrentCookieSecret).2 = some e →
      NewManager lib o = (none, some e)) ∧
    (∀ e, ValidSecret lib o.CurrentCookieSecret →
      (fromBase64 lib o.PreviousCookieSecret).2 = some e →
      NewManager lib o = (none, some e)) ∧
    (∀ s e, (fromBase64 stdLib s).2 = some e →
      (∃ n, e = .corruptInput n) ∧ e ≠ errCurrentLength ∧ e ≠ errPreviousLength) := by
  refine ⟨newManager_of_current_err lib o, fun e hv h => newManager_of_previous_err lib o e hv h,
    ?_⟩
  intro s e h
  obtain ⟨n, rfl⟩ := stdDecodeString_error s e h
  exact ⟨⟨n, rfl⟩, by simp [errCurrentLength], by simp [errPreviousLength]⟩

/-- The decoding error of `notBase64` is returned for the current secret, and for the previous secret after a valid current one. -/
theorem newManager_decoding_error_witness :
    (NewManager stdLib ⟨notBase64, secret31, 0, ""⟩).2 = some (.corruptInput 3) ∧
      (NewManager stdLib ⟨secretA, notBase64, 0, ""⟩).2 = some (.corruptInput 3) :=
  ⟨by rw [(newManager_decoding_error stdLib ⟨notBase64, secret31, 0, ""⟩).1 (.corruptInput 3)
      (by decide)],
    by rw [(newManager_decoding_error stdLib ⟨secretA, notBase64, 0, ""⟩).2.1 (.corruptInput 3)
      (by decide) (by decide)]⟩

/-- C9: the length error of `NewManager` names the secret that failed.  A current secret
that is base64 of a length other than 32 and 64 gives the error of the current secret; a
valid current secret with a previous secret that is base64 of a length other than 32 and 64
gives the error of the previous secret; the two errors, and their messages, differ. -/
theorem newManager_length_error (lib : Lib) (o : ManagerOptions) :
    ((fromBase64 lib o.CurrentCookieSecret).2 = none →
      (fromBase64 lib o.CurrentCookieSecret).1.length ≠ 32 →
      (fromBase64 lib o.CurrentCookieSecret).1.length ≠ 64 →
      NewManager lib o = (none, some errCurrentLength)) ∧
    (ValidSecret lib o.CurrentCookieSecret →
      (fromBase64 lib o.PreviousCookieSecret).2 = none →
      (fromBase64 lib o.PreviousCookieSecret).1.length ≠ 32 →
      (fromBase64 lib o.PreviousCookieSecret).1.length ≠ 64 →
      NewManager lib o = (none, some errPreviousLength)) ∧
    errCurrentLength ≠ errPreviousLength ∧
    errCurrentLength.Error = "current cookie secret must be 32 or 64 bytes" ∧
    errPreviousLength.Error = "previous cookie secret must be 32 or 64 bytes" ∧
    errCurrentLength.Error ≠ errPreviousLength.Error :=
  ⟨newManager_of_current_length lib o, newManager_of_previous_length lib o, by decide, rfl,
    rfl, by decide⟩

/-- A current secret of 31 bytes and a previous secret of 33 bytes give the two length errors. -/
theorem newManager_length_error_witness :
    (NewManager stdLib ⟨secret31, secretA, 0, ""⟩).2 = some errCurrentLength ∧
      (NewManager stdLib ⟨secretA, secret33, 0, ""⟩).2 = some errPreviousLength :=
  ⟨by rw [(newManager_length_error stdLib ⟨secret31, secretA, 0, ""⟩).1 (by decide)
      (by decide) (by decide)],
    by rw [(newManager_length_error stdLib ⟨secretA, secret33, 0, ""⟩).2.1 (by decide)
      (by decide) (by decide) (by decide)]⟩

/-- C10: defaults.  When `NewManager` succeeds, the manager's `SameSite` is Lax if the
option is 0 and the option itself otherwise, and its `Path` is "/" if the option is empty
and the option itself otherwise. -/
theorem newManager_defaults (lib : Lib) (o : ManagerOptions) (m : Manager)
    (h : NewManager lib o = (some m, none)) :
    (o.SameSite = 0 → m.SameSite = SameSiteLaxMode) ∧
      (o.SameSite ≠ 0 → m.SameSite = o.SameSite) ∧
      (o.Path = "" → m.Path = "/") ∧
      (o.Path ≠ "" → m.Path = o.Path) := by
  obtain ⟨-, -, rfl⟩ := newManager_some lib o m h
  refine ⟨?_, ?_, ?_, ?_⟩ <;> intro hx <;> simp [builtManager, hx]

/-- Unset options give Lax and "/"; set options are kept. -/
theorem newManager_defaults_witness :
    (keyedManager bytesA bytesB).SameSite = 2 ∧ (keyedManager bytesA bytesB).Path = "/" ∧
      (Manager.mk (keyedCodec bytesA) (keyedCodec bytesB) 3 "/app").SameSite = 3 ∧
      (Manager.mk (keyedCodec bytesA) (keyedCodec bytesB) 3 "/app").Path = "/app" :=
  ⟨(newManager_defaults stdLib ⟨secretA, secretB, 0, ""⟩ (keyedManager bytesA bytesB) rfl).1 rfl,
    (newManager_defaults stdLib ⟨secretA, secretB, 0, ""⟩ (keyedManager bytesA bytesB)
      rfl).2.2.1 rfl,
    (newManager_defaults stdLib ⟨secretA, secretB, 3, "/app"⟩
      (Manager.mk (keyedCodec bytesA) (keyedCodec bytesB) 3 "/app") rfl).2.1 (by decide),
    (newManager_defaults stdLib ⟨secretA, secretB, 3, "/app"⟩
      (Manager.mk (keyedCodec bytesA) (keyedCodec bytesB) 3 "/app") rfl).2.2.2 (by decide)⟩

theorem newManager_invalid (lib : Lib) (o : ManagerOptions)
    (hne : ¬ (ValidSecret lib o.CurrentCookieSecret ∧ ValidSecret lib o.PreviousCookieSecret)) :
    ∃ e, NewManager lib o = (none, some e) := by
  rcases hc : (fromBase64 lib o.CurrentCookieSecret).2 with _ | e
  · by_cases h32 : (fromBase64 lib o.CurrentCookieSecret).1.length = 32 ∨
        (fromBase64 lib o.CurrentCookieSecret).1.length = 64
    · have hv : ValidSecret lib o.CurrentCookieSecret := ⟨hc, h32⟩
      rcases hp : (fromBase64 lib o.PreviousCookieSecret).2 with _ | e
      · by_cases hp32 : (fromBase64 lib o.PreviousCookieSecret).1.length = 32 ∨
            (fromBase64 lib o.PreviousCookieSecret).1.length = 64
        · exact absurd ⟨hv, hp, hp32⟩ hne
        · exact ⟨_, newManager_of_previous_length lib o hv hp (fun x => hp32 (Or.inl x))
            (fun x => hp32 (Or.inr x))⟩
      · exact ⟨_, newManager_of_previous_err lib o e hv hp⟩
    · exact ⟨_, newManager_of_current_length lib o hc (fun x => h32 (Or.inl x))
        (fun x => h32 (Or.inr x))⟩
  · exact ⟨_, newManager_of_current_err lib o e hc⟩

/-- C11: no partial construction.  `NewManager` returns either a manager with a nil error or
a nil manager with an error: never both a manager and an error, never neither. -/
theorem newManager_all_or_nothing (lib : Lib) (o : ManagerOptions) :
    ((∃ m, NewManager lib o = (some m, none)) ∨ (∃ e, NewManager lib o = (none, some e))) ∧
      ((NewManager lib o).1.isSome = true ↔ (NewManager lib o).2 = none) := by
  by_cases hv : ValidSecret lib o.CurrentCookieSecret ∧ ValidSecret lib o.PreviousCookieSecret
  · have h := newManager_of_valid lib o hv.1 hv.2
    exact ⟨Or.inl ⟨_, h⟩, by rw [h]; simp⟩
  · obtain ⟨e, h⟩ := newManager_invalid lib o hv
    exact ⟨Or.inr ⟨e, h⟩, by rw [h]; simp⟩

/-- A valid pair of secrets gives a manager and no error; a secret of 31 bytes gives no
manager and an error. -/
theorem newManager_all_or_nothing_witness :
    ((NewManager stdLib ⟨secretA, secretB, 0, ""⟩).1.isSome = true ∧
        (NewManager stdLib ⟨secretA, secretB, 0, ""⟩).2 = none) ∧
      ((NewManager stdLib ⟨secret31, secretB, 0, ""⟩).1.isSome = false ∧
        (NewManager stdLib ⟨secret31, secretB, 0, ""⟩).2 ≠ none) :=
  ⟨⟨by decide, ((newManager_all_or_nothing stdLib ⟨secretA, secretB, 0, ""⟩).2).1 (by decide)⟩,
    ⟨by decide,
      fun h => absurd (((newManager_all_or_nothing stdLib ⟨secret31, secretB, 0, ""⟩).2).2 h)
        (by decide)⟩⟩

/-! ## Cookie operations -/

/-- C12: when `Sign` fails, `SetCookie` returns that error and leaves the response as it
was; when `Sign` succeeds with token `t`, `SetCookie` returns no error and hands exactly one
record to the response: name `key`, value `t`, `HttpOnly` and `Secure` set, the manager's
`Path` and `SameSite`. -/
theorem setCookie_outcome (m : Manager) (w : ResponseWriter) (r : Request)
    (key value : String) :
    (∀ t e, m.Sign key value = (t, some e) → m.SetCookie w r key value = (w, some e)) ∧
      (∀ t, m.Sign key value = (t, none) →
        m.SetCookie w r key value =
          (w ++ [{ Name := key, Value := t, HttpOnly := true, Secure := true, Path := m.Path,
                   SameSite := m.SameSite }], none)) := by
  constructor
  · intro t e h
    simp [Manager.SetCookie, h]
  · intro t h
    simp [Manager.SetCookie, h, httpSetCookie]

/-- The keyed manager sets one record for a short value and none for a value of 4097
characters. -/
theorem setCookie_outcome_witness :
    (keyedManager [66] [65]).SetCookie [] (requestOf []) "sid" "hello" =
        ([{ Name := "sid", Value := "B:3:sid|hello", HttpOnly := true, Secure := true,
            Path := "/", SameSite := 2 }], none) ∧
      (keyedManager [66] [65]).SetCookie [] (requestOf []) "sid"
          (String.mk (List.replicate 4097 'x')) = ([], some errTooLong) :=
  ⟨(setCookie_outcome (keyedManager [66] [65]) [] (requestOf []) "sid" "hello").2
      "B:3:sid|hello" (by decide),
    (setCookie_outcome (keyedManager [66] [65]) [] (requestOf []) "sid"
      (String.mk (List.replicate 4097 'x'))).1 "" errTooLong
      (by
        have hl : (String.mk (List.replicate 4097 'x')).length = 4097 := by
          simp only [String.length, List.length_replicate]
        simp only [Manager.Sign, keyedManager, keyedCodec, hl]
        decide)⟩

/-- C13: when the request has no cookie named `key`, `GetCookieValue` fails with the
cookie-not-found error, prints nothing and is the same for every manager (no codec is
consulted); when it has one, `GetCookieValue` has the error of `Read key token` for the
cookie's value `token`, its value when that error is nil, and its output. -/
theorem getCookieValue_outcome (m : Manager) (r : Request) (key : String) :
    (r.Cookie key = none →
      m.GetCookieValue r key = (("", some errCookieNotFound), []) ∧
        ∀ m2 : Manager, m2.GetCookieValue r key = m.GetCookieValue r key) ∧
    (∀ c, r.Cookie key = some c →
      (m.GetCookieValue r key).1.2 = (m.Read key c.Value).1.2 ∧
        ((m.Read key c.Value).1.2 = none →
          (m.GetCookieValue r key).1 = (m.Read key c.Value).1) ∧
        (m.GetCookieValue r key).2 = (m.Read key c.Value).2) := by
  constructor
  · intro h
    refine ⟨by simp [Manager.GetCookieValue, h], ?_⟩
    intro m2
    simp [Manager.GetCookieValue, h]
  · intro c h
    rcases hr : m.Read key c.Value with ⟨⟨v, _ | e⟩, out⟩ <;>
      simp [Manager.GetCookieValue, h, hr]

/-- Without the cookie the answer is cookie-not-found; with a cookie of the current key the
answer is its value. -/
theorem getCookieValue_outcome_witness :
    (keyedManager [66] [65]).GetCookieValue (requestOf []) "sid"
        = (("", some errCookieNotFound), []) ∧
      ((keyedManager [66] [65]).GetCookieValue
        (requestOf [{ Name := "sid", Value := "B:3:sid|hello" }]) "sid").1 = ("hello", none) :=
  ⟨((getCookieValue_outcome (keyedManager [66] [65]) (requestOf []) "sid").1 (by decide)).1,
    by
      rw [((getCookieValue_outcome (keyedManager [66] [65])
        (requestOf [{ Name := "sid", Value := "B:3:sid|hello" }]) "sid").2
        { Name := "sid", Value := "B:3:sid|hello" } (by decide)).2.1 (by decide)]
      decide⟩

/-- C14: `DeleteCookie` hands one record to the response: name `key`, empty value, max-age
-1, `HttpOnly` and `Secure` set, the manager's `Path` and `SameSite`; these attributes are
those of the record a successful `SetCookie` writes for the same manager and key.  The
response depends on the manager's `Path` and `SameSite` only, not on its codecs, and no
error is returned. -/
theorem deleteCookie_record (m : Manager) (w : ResponseWriter) (key : String) :
    m.DeleteCookie w key =
        w ++ [{ Name := key, Value := "", MaxAge := -1, HttpOnly := true, Secure := true,
                Path := m.Path, SameSite := m.SameSite }] ∧
      (∀ (r : Request) (value : String) (w2 : ResponseWriter),
        m.SetCookie w r key value = (w2, none) →
        ∃ c d, w2 = w ++ [c] ∧ m.DeleteCookie w key = w ++ [d] ∧ d.Name = c.Name ∧
          d.Path = c.Path ∧ d.SameSite = c.SameSite ∧ d.HttpOnly = c.HttpOnly ∧
          d.Secure = c.Secure ∧ d.Value = "" ∧ d.MaxAge = -1) ∧
      (∀ m2 : Manager, m2.SameSite = m.SameSite → m2.Path = m.Path →
        m2.DeleteCookie w key = m.DeleteCookie w key) := by
  refine ⟨by simp [Manager.DeleteCookie, httpSetCookie], ?_, ?_⟩
  · intro r value w2 h
    rcases hs : m.Sign key value with ⟨t, _ | e⟩
    · rw [(setCookie_outcome m w r key value).2 t hs] at h
      simp only [Prod.mk.injEq, and_true] at h
      exact ⟨_, { Name := key, Value := "", MaxAge := -1, HttpOnly := true, Secure := true,
                  Path := m.Path, SameSite := m.SameSite },
        h.symm, by simp [Manager.DeleteCookie, httpSetCookie], rfl, rfl, rfl, rfl,
        rfl, rfl, rfl⟩
    · rw [(setCookie_outcome m w r key value).1 t e hs] at h
      simp at h
  · intro m2 h1 h2
    simp [Manager.DeleteCookie, h1, h2]

/-- The keyed manager deletes the cookie `sid`. -/
theorem deleteCookie_record_witness :
    (keyedManager [66] [65]).DeleteCookie [] "sid" =
      [{ Name := "sid", Value := "", MaxAge := -1, HttpOnly := true, Secure := true,
         Path := "/", SameSite := 2 }] :=
  (deleteCookie_record (keyedManager [66] [65]) [] "sid").1

/-- C15: cookie lifecycle.  If the current codec decodes what it encodes and `SetCookie`
succeeds, writing the record `c`, then for every request whose cookie named `key` has the
value of `c`, `GetCookieValue` returns the original value and no error. -/
theorem setCookie_getCookieValue (m : Manager) (w w2 : ResponseWriter) (r0 r : Request)
    (key value : String) (c got : HttpCookie)
    (hrev : ∀ n v t, m.CurrentSecureCookieInstance.Encode n v = (t, none) →
      m.CurrentSecureCookieInstance.Decode n t "" = (v, none))
    (hset : m.SetCookie w r0 key value = (w2, none))
    (hw : w2 = w ++ [c])
    (hget : r.Cookie key = some got) (hval : got.Value = c.Value) :
    (m.GetCookieValue r key).1 = (value, none) := by
  rcases hs : m.Sign key value with ⟨t, _ | e⟩
  · rw [(setCookie_outcome m w r0 key value).2 t hs, hw] at hset
    simp only [Prod.mk.injEq, List.append_cancel_left_eq, List.cons.injEq, and_true] at hset
    have hd := hrev key value t (encode_of_sign_ok m key value t hs)
    have hr := read_of_current_ok m key t value hd
    have hv : got.Value = t := by rw [hval, ← hset]
    have h1 := (getCookieValue_outcome m r key).2 got hget
    rw [hv, hr] at h1
    rw [h1.2.1 rfl]
  · rw [(setCookie_outcome m w r0 key value).1 t e hs] at hset
    simp at hset

/-- The keyed manager gets back the value it set. -/
theorem setCookie_getCookieValue_witness :
    ((keyedManager [66] [65]).GetCookieValue
      (requestOf [{ Name := "sid", Value := "B:3:sid|hello", HttpOnly := true, Secure := true,
                    Path := "/", SameSite := 2 }]) "sid").1 = ("hello", none) :=
  setCookie_getCookieValue (keyedManager [66] [65]) [] _ (requestOf []) _ "sid" "hello"
    { Name := "sid", Value := "B:3:sid|hello", HttpOnly := true, Secure := true,
      Path := "/", SameSite := 2 } _
    (fun n v t h => keyedCodec_reversible [66] n v t "" h)
    (by decide) rfl (by decide) rfl

/-! ## Diagnostics, error values and managers that do not rotate -/

/-- C18: `Read` prints its fallback line exactly when the current codec fails: nothing when
the current decode succeeds, and one line ending in a newline that carries the message of
the current codec's error when it fails.  The returned pair is that of the verification
algorithm without output. -/
theorem read_fallback_diagnostic (m : Manager) (key encodedValue : String) :
    (∀ v, m.CurrentSecureCookieInstance.Decode key encodedValue "" = (v, none) →
      (m.Read key encodedValue).2 = []) ∧
    (∀ v e, m.CurrentSecureCookieInstance.Decode key encodedValue "" = (v, some e) →
      (m.Read key encodedValue).2 =
        ["Falling back to previous cookie secret for key. Error: " ++ e.Error ++ "\n"]) ∧
    ((m.Read key encodedValue).2 ≠ [] ↔
      (m.CurrentSecureCookieInstance.Decode key encodedValue "").2 ≠ none) ∧
    (m.Read key encodedValue).2.length ≤ 1 ∧
    (m.Read key encodedValue).1 = verifySpec m key encodedValue := by
  rcases hd : m.CurrentSecureCookieInstance.Decode key encodedValue "" with ⟨v, _ | e⟩
  · rw [read_of_current_ok m key encodedValue v hd]
    simp [verifySpec, hd]
  · rw [read_of_current_err m key encodedValue v e hd]
    simp [verifySpec, hd, fallbackLine]

/-- Reading a token of the previous key prints the line with the current codec's error;
reading a token of the current key prints nothing. -/
theorem read_fallback_diagnostic_witness :
    ((keyedManager [66] [65]).Read "sid" "A:3:sid|hello").2 =
        ["Falling back to previous cookie secret for key. Error: " ++
          "securecookie: the value is not valid" ++ "\n"] ∧
      ((keyedManager [66] [65]).Read "sid" "B:3:sid|hello").2 = [] :=
  ⟨(read_fallback_diagnostic (keyedManager [66] [65]) "sid" "A:3:sid|hello").2.1 ""
      errNotValid (by decide),
    (read_fallback_diagnostic (keyedManager [66] [65]) "sid" "B:3:sid|hello").1 "hello"
      (by decide)⟩

/-- C19: whenever `GetCookieValue` returns an error its value is the empty string, whatever
a failing decode left in the destination; a non-empty value comes with a nil error. -/
theorem getCookieValue_error_empty (m : Manager) (r : Request) (key : String) :
    ((m.GetCookieValue r key).1.2 ≠ none → (m.GetCookieValue r key).1.1 = "") ∧
      ((m.GetCookieValue r key).1.1 ≠ "" → (m.GetCookieValue r key).1.2 = none) := by
  have h : (m.GetCookieValue r key).1.2 ≠ none → (m.GetCookieValue r key).1.1 = "" := by
    unfold Manager.GetCookieValue
    rcases hc : r.Cookie key with _ | c
    · simp
    · rcases hr : m.Read key c.Value with ⟨⟨v, _ | e⟩, out⟩ <;> simp [hr]
  refine ⟨h, ?_⟩
  intro hv
  by_contra hne
  exact hv (h hne)

/-- With a codec that fails and leaves a value behind, `Read` returns that value with the
error, and `GetCookieValue` returns the empty string with the error. -/
theorem getCookieValue_error_empty_witness :
    ((Manager.mk leakyCodec leakyCodec 2 "/").Read "sid" "x").1
        = ("partialpartial", some errNotValid) ∧
      ((Manager.mk leakyCodec leakyCodec 2 "/").GetCookieValue
        (requestOf [{ Name := "sid", Value := "x" }]) "sid").1 = ("", some errNotValid) :=
  ⟨by decide, by
    have h := (getCookieValue_error_empty (Manager.mk leakyCodec leakyCodec 2 "/")
      (requestOf [{ Name := "sid", Value := "x" }]) "sid").1 (by decide)
    exact Prod.ext h (by decide)⟩

theorem keyedCodec_deterministic (hashKey : List Nat) : Deterministic (keyedCodec hashKey) := by
  intro name tok d1 d2
  simp only [keyedCodec]
  rcases dropFront (codecHeader hashKey name) tok.data with _ | v <;> simp

/-- C20: a manager that does not rotate.  When the previous codec is the current codec and
the outcome of its `Decode` does not depend on what the destination held, `Read` has the
error of the single decode of that codec (so it succeeds exactly when that decode does) and,
when it succeeds, its value.  A manager built by `NewManager` from one secret given twice
has its previous codec equal to its current codec. -/
theorem read_not_rotating (m : Manager) (key encodedValue : String)
    (hsame : m.PreviousSecureCookieInstance = m.CurrentSecureCookieInstance)
    (hdet : Deterministic m.CurrentSecureCookieInstance) :
    (m.Read key encodedValue).1.2 = (readSingle m.CurrentSecureCookieInstance key encodedValue).2 ∧
      ((readSingle m.CurrentSecureCookieInstance key encodedValue).2 = none →
        (m.Read key encodedValue).1 = readSingle m.CurrentSecureCookieInstance key encodedValue) ∧
      (∀ (lib : Lib) (secret : String) (ss : SameSite) (p : String) (m2 : Manager),
        NewManager lib ⟨secret, secret, ss, p⟩ = (some m2, none) →
        m2.PreviousSecureCookieInstance = m2.CurrentSecureCookieInstance) := by
  refine ⟨?_, ?_, ?_⟩
  · unfold readSingle
    rcases hd : m.CurrentSecureCookieInstance.Decode key encodedValue "" with ⟨v, _ | e⟩
    · rw [read_of_current_ok m key encodedValue v hd]
    · rw [read_of_current_err m key encodedValue v e hd, hsame]
      have h := (hdet key encodedValue v "").1
      rw [hd] at h
      exact h
  · unfold readSingle
    intro hok
    rcases hd : m.CurrentSecureCookieInstance.Decode key encodedValue "" with ⟨v, _ | e⟩
    · rw [read_of_current_ok m key encodedValue v hd]
    · rw [hd] at hok
      simp at hok
  · intro lib secret ss p m2 h
    obtain ⟨-, -, rfl⟩ := newManager_some lib _ m2 h
    rfl

/-- The keyed manager with one key in both places rejects a token of another key with the
error of the single decode, and reads a token of its key. -/
theorem read_not_rotating_witness :
    ((keyedManager [66] [66]).Read "sid" "A:3:sid|hello").1.2 = some errNotValid ∧
      ((keyedManager [66] [66]).Read "sid" "B:3:sid|hello").1 = ("hello", none) :=
  ⟨(read_not_rotating (keyedManager [66] [66]) "sid" "A:3:sid|hello" rfl
      (keyedCodec_deterministic [66])).1.trans (by decide),
    ((read_not_rotating (keyedManager [66] [66]) "sid" "B:3:sid|hello" rfl
      (keyedCodec_deterministic [66])).2.1 (by decide)).trans (by decide)⟩

/-! ## Properties that depend on the codec -/

/-- C16: name binding.  `Sign` hands `name1` to the current codec's `Encode`, and `Read`
hands `name2` to `Decode` on the current and on the previous attempt.  So, when both codecs
of the manager separate names on the tokens of the current codec, `Read` under `name2` of a
token that `Sign` produced under another name `name1` fails. -/
theorem read_name_binding (m : Manager) (name1 name2 value tok : String)
    (hne : name1 ≠ name2)
    (hcur : NameBound m.CurrentSecureCookieInstance m.CurrentSecureCookieInstance)
    (hprev : NameBound m.PreviousSecureCookieInstance m.CurrentSecureCookieInstance)
    (hs : m.Sign name1 value = (tok, none)) :
    (m.Read name2 tok).1.2 ≠ none ∧
      m.CurrentSecureCookieInstance.Encode name1 value = (tok, none) ∧
      (m.Read name2 tok).1 =
        (match m.CurrentSecureCookieInstance.Decode name2 tok "" with
          | (v, none) => (v, none)
          | (v, some _) => m.PreviousSecureCookieInstance.Decode name2 tok v) := by
  have henc := encode_of_sign_ok m name1 value tok hs
  refine ⟨?_, henc, ?_⟩
  · rcases hd : m.CurrentSecureCookieInstance.Decode name2 tok "" with ⟨v, _ | e⟩
    · have h := hcur name1 name2 value tok "" hne henc
      rw [hd] at h
      exact absurd rfl h
    · rw [read_of_current_err m name2 tok v e hd]
      exact hprev name1 name2 value tok v hne henc
  · rcases hd : m.CurrentSecureCookieInstance.Decode name2 tok "" with ⟨v, _ | e⟩
    · rw [read_of_current_ok m name2 tok v hd]
    · rw [read_of_current_err m name2 tok v e hd]

/-- The keyed manager signs under `sid` and reads the token back under `sid`; reading it
under `uid` fails. -/
theorem read_name_binding_witness :
    (keyedManager [66] [65]).Sign "sid" "hello" = ("B:3:sid|hello", none) ∧
      ((keyedManager [66] [65]).Read "sid" "B:3:sid|hello").1 = ("hello", none) ∧
      ((keyedManager [66] [65]).Read "uid" "B:3:sid|hello").1.2 ≠ none :=
  ⟨by decide, by decide,
    (read_name_binding (keyedManager [66] [65]) "sid" "uid" "hello" "B:3:sid|hello"
      (by decide) (keyedCodec_nameBound [66])
      (keyedCodec_nameBound_of_ne 66 65 [] [] (by decide)) (by decide)).1⟩

/-- C17, as stated, fails: the manager over the codec with a base64 outer layer signs `hi`
under `sid`; the token with its last character before the padding changed from `k` to `l`
(only the unused trailing bits of the base64 text differ) is read without error, as `hi`. -/
theorem read_accepts_changed_token :
    (Manager.mk (base64Codec [66]) (base64Codec [65]) 2 "/").Sign "sid" "hi"
        = ("QkI6OjMzOjpzc2lpZGR8fGhoaWk=", none) ∧
      OneByteChanged "QkI6OjMzOjpzc2lpZGR8fGhoaWk=" "QkI6OjMzOjpzc2lpZGR8fGhoaWl=" ∧
      ((Manager.mk (base64Codec [66]) (base64Codec [65]) 2 "/").Read "sid"
        "QkI6OjMzOjpzc2lpZGR8fGhoaWl=").1 = ("hi", none) :=
  ⟨by decide,
    ⟨"QkI6OjMzOjpzc2lpZGR8fGhoaW".data, 'k', 'l', ['='], by decide, rfl, rfl⟩,
    by decide⟩

/-- C17, amended: for a token that `Sign` produced, with one position changed, `Read` under
the same name fails exactly when the current codec rejects the changed token and the
previous codec, called next, rejects it too; when the current codec accepts it, `Read`
returns its value without error; otherwise `Read` returns what the previous codec returns.
The changed token differs from the signed one. -/
theorem read_changed_token_outcome (m : Manager) (name value tok tok2 : String)
    (hs : m.Sign name value = (tok, none))
    (hch : OneByteChanged tok tok2) :
    (m.CurrentSecureCookieInstance.Encode name value = (tok, none) ∧ tok2 ≠ tok) ∧
      ((m.Read name tok2).1.2 ≠ none ↔
        (m.CurrentSecureCookieInstance.Decode name tok2 "").2 ≠ none ∧
          (m.PreviousSecureCookieInstance.Decode name tok2
            (m.CurrentSecureCookieInstance.Decode name tok2 "").1).2 ≠ none) ∧
      (∀ v, m.CurrentSecureCookieInstance.Decode name tok2 "" = (v, none) →
        (m.Read name tok2).1 = (v, none)) ∧
      (∀ v1 e, m.CurrentSecureCookieInstance.Decode name tok2 "" = (v1, some e) →
        (m.Read name tok2).1 = m.PreviousSecureCookieInstance.Decode name tok2 v1) := by
  refine ⟨⟨encode_of_sign_ok m name value tok hs, ?_⟩, ?_, ?_, ?_⟩
  · obtain ⟨pre, x, y, suf, hxy, ha, hb⟩ := hch
    intro heq
    rw [heq, ha] at hb
    simp only [List.append_cancel_left_eq, List.cons.injEq, and_true] at hb
    exact hxy hb
  · rcases hd : m.CurrentSecureCookieInstance.Decode name tok2 "" with ⟨v, _ | e⟩
    · rw [read_of_current_ok m name tok2 v hd]
      simp
    · rw [read_of_current_err m name tok2 v e hd]
      simp
  · intro v hd
    rw [read_of_current_ok m name tok2 v hd]
  · intro v1 e hd
    rw [read_of_current_err m name tok2 v1 e hd]

/-- The manager over the sealed codec signs `hi` under `sid` and reads the token back; the
token with its last character changed is rejected by both codecs and is not read. -/
theorem read_changed_token_outcome_witness :
    (Manager.mk (sealedCodec [66]) (sealedCodec [65]) 2 "/").Sign "sid" "hi"
        = ("BB::33::ssiidd||hhii", none) ∧
      ((Manager.mk (sealedCodec [66]) (sealedCodec [65]) 2 "/").Read "sid"
        "BB::33::ssiidd||hhii").1 = ("hi", none) ∧
      ((Manager.mk (sealedCodec [66]) (sealedCodec [65]) 2 "/").Read "sid"
        "BB::33::ssiidd||hhiX").1.2 ≠ none :=
  ⟨by decide, by decide,
    (read_changed_token_outcome (Manager.mk (sealedCodec [66]) (sealedCodec [65]) 2 "/") "sid"
      "hi" "BB::33::ssiidd||hhii" "BB::33::ssiidd||hhiX" (by decide)
      ⟨"BB::33::ssiidd||hhi".data, 'i', 'X', [], by decide, rfl, rfl⟩).2.1.mpr
      ⟨(sealedCodec_tamperEvident [66] [66] "sid" "hi" "BB::33::ssiidd||hhii"
          "BB::33::ssiidd||hhiX" "" (by decide)
          ⟨"BB::33::ssiidd||hhi".data, 'i', 'X', [], by decide, rfl, rfl⟩),
        (sealedCodec_tamperEvident [66] [65] "sid" "hi" "BB::33::ssiidd||hhii"
          "BB::33::ssiidd||hhiX" _ (by decide)
          ⟨"BB::33::ssiidd||hhi".data, 'i', 'X', [], by decide, rfl, rfl⟩)⟩⟩

end Cookie
